import Mathlib

/-!
Verification of the multi-source symbol-resolution combinator of
`minidump-processor/src/symbols.rs` (`MultiSymbolProvider` and the
`SymbolProvider` trait).  The Rust code is shallowly embedded: the trait
becomes a record of pure functions, `&mut` parameters become explicit
state threading, `Result<(), FillSymbolError>` becomes
`Except FillSymbolError Unit`, `Option<()>` becomes `Option Unit`, and
`HashMap<String, SymbolStats>` becomes an association list observed
through lookup.
-/

/-- Statistics on the symbols of a module (`SymbolStats` in the source). -/
structure SymbolStats where
  symbol_url : Option String
  loaded_symbols : Bool
  corrupt_symbols : Bool
deriving DecidableEq, Repr

/-- The fill-failure error (`FillSymbolError {}` in the source): a payload-free
error value. -/
structure FillSymbolError where
deriving DecidableEq, Repr

variable {M F W : Type}

/-- The `SymbolProvider` trait as a record of pure operations.  `M` is the
module type, `F` the frame-symbolizer sink state, `W` the frame-walker state.
`fill_symbol` takes `&mut` frame, so it returns the new frame state together
with its `Result`; `walk_frame` takes `&mut` walker, so it returns the new
walker state together with its `Option<()>`; `stats` returns a `HashMap`
snapshot, modelled as the list of its entries. -/
structure SymbolProvider (M F W : Type) where
  fill_symbol : M → F → F × Except FillSymbolError Unit
  walk_frame : M → W → W × Option Unit
  stats : List (String × SymbolStats)

/-- The combinator: an ordered list of boxed providers
(`providers: Vec<Box<dyn SymbolProvider>>`). -/
structure MultiSymbolProvider (M F W : Type) where
  providers : List (SymbolProvider M F W)

/-- `MultiSymbolProvider::new`, i.e. `Default::default()`: an empty provider
list. -/
def MultiSymbolProvider.new : MultiSymbolProvider M F W :=
  { providers := [] }

/-- `MultiSymbolProvider::add`: `self.providers.push(provider)`. -/
def MultiSymbolProvider.add (self : MultiSymbolProvider M F W)
    (provider : SymbolProvider M F W) : MultiSymbolProvider M F W :=
  { providers := self.providers ++ [provider] }

/-- Rust `Result::or`: `best_result.or(new_result)` keeps an `Ok`, otherwise
takes the second result. -/
def exceptOr (a b : Except FillSymbolError Unit) : Except FillSymbolError Unit :=
  match a with
  | Except.ok v => Except.ok v
  | Except.error _ => b

/-- The loop body of `MultiSymbolProvider::fill_symbol`: iterate over the
providers, threading the `&mut` frame and folding the running `best_result`
with `Result::or`. -/
def fillList (m : M) : List (SymbolProvider M F W) → F → Except FillSymbolError Unit →
    F × Except FillSymbolError Unit
  | [], f, best => (f, best)
  | p :: ps, f, best =>
    let r := p.fill_symbol m f
    fillList m ps r.1 (exceptOr best r.2)

/-- `MultiSymbolProvider::fill_symbol`: run every provider, starting from
`best_result = Err(FillSymbolError {})`. -/
def MultiSymbolProvider.fill_symbol (self : MultiSymbolProvider M F W) (module : M)
    (frame : F) : F × Except FillSymbolError Unit :=
  fillList module self.providers frame (Except.error FillSymbolError.mk)

/-- The loop body of `MultiSymbolProvider::walk_frame`: iterate over the
providers, threading the `&mut` walker, returning the first `Some` result
immediately (`if result.is_some() { return result; }`), and `None` after the
loop. -/
def walkList (m : M) : List (SymbolProvider M F W) → W → W × Option Unit
  | [], w => (w, none)
  | p :: ps, w =>
    let r := p.walk_frame m w
    if r.2.isSome then r else walkList m ps r.1

/-- `MultiSymbolProvider::walk_frame`. -/
def MultiSymbolProvider.walk_frame (self : MultiSymbolProvider M F W) (module : M)
    (walker : W) : W × Option Unit :=
  walkList module self.providers walker

/-- `HashMap::insert` semantics on the association-list model: overwrite the
entry whose key is already present, otherwise append a new entry. -/
def hmInsert (m : List (String × SymbolStats)) (a : String) (v : SymbolStats) :
    List (String × SymbolStats) :=
  if m.any (fun kv => kv.1 = a) then
    m.map (fun kv => if kv.1 = a then (a, v) else kv)
  else
    m ++ [(a, v)]

/-- `HashMap::extend`: insert every entry of `l` into `m`. -/
def hmExtend (m l : List (String × SymbolStats)) : List (String × SymbolStats) :=
  l.foldl (fun acc kv => hmInsert acc kv.1 kv.2) m

/-- `HashMap::get` on the association-list model: the first entry with the
given key. -/
def hmFind (m : List (String × SymbolStats)) (k : String) : Option SymbolStats :=
  match m with
  | [] => none
  | kv :: rest => if kv.1 = k then some kv.2 else hmFind rest k

/-- `MultiSymbolProvider::stats`: start from `HashMap::new()` and `extend`
with every provider's stats in registration order. -/
def MultiSymbolProvider.stats (self : MultiSymbolProvider M F W) :
    List (String × SymbolStats) :=
  self.providers.foldl (fun acc p => hmExtend acc p.stats) []

/-- The `impl SymbolProvider for MultiSymbolProvider`: the combinator itself
viewed through the trait, enabling nesting. -/
def MultiSymbolProvider.toProvider (self : MultiSymbolProvider M F W) :
    SymbolProvider M F W :=
  { fill_symbol := self.fill_symbol
    walk_frame := self.walk_frame
    stats := self.stats }

/-- Option choice: first `some` wins (used to state the stats-merge policy). -/
def optOr {α : Type} (a b : Option α) : Option α :=
  match a with
  | some v => some v
  | none => b

/-- The per-provider results of a `fill_symbol` pass, with the frame state
threaded exactly as the combinator's loop threads it. -/
def fillResults (m : M) : List (SymbolProvider M F W) → F →
    List (Except FillSymbolError Unit)
  | [], _ => []
  | p :: ps, f => (p.fill_symbol m f).2 :: fillResults m ps (p.fill_symbol m f).1

/-- Whether a fill result is a success. -/
def exceptIsOk : Except FillSymbolError Unit → Bool
  | Except.ok _ => true
  | Except.error _ => false

/-- Every provider in the list returns `None` from `walk_frame`, with the
walker state threaded as the combinator's loop threads it. -/
def allNoneThreaded (m : M) : List (SymbolProvider M F W) → W → Bool
  | [], _ => true
  | p :: ps, w =>
    (p.walk_frame m w).2.isNone && allNoneThreaded m ps (p.walk_frame m w).1

/-- The walker state after running `walk_frame` of every provider in the list
(threading the `&mut` walker through each call). -/
def threadWalk (m : M) : List (SymbolProvider M F W) → W → W
  | [], w => w
  | p :: ps, w => threadWalk m ps (p.walk_frame m w).1

/-- The last occurrence of key `k` in an entry list (later entries win). -/
def revFind : List (String × SymbolStats) → String → Option SymbolStats
  | [], _ => none
  | kv :: l, k => optOr (revFind l k) (if kv.1 = k then some kv.2 else none)

/-- The stats record for key `k` of the last registered source that reports
`k`, the spec's last-write-wins merge policy. -/
def lastSourceRecord : List (SymbolProvider M F W) → String → Option SymbolStats
  | [], _ => none
  | p :: ps, k => optOr (lastSourceRecord ps k) (hmFind p.stats k)

/-- Internal variant of `lastSourceRecord` that reads each provider's stats
list by its last occurrence. -/
def lastSourceRecordRev : List (SymbolProvider M F W) → String → Option SymbolStats
  | [], _ => none
  | p :: ps, k => optOr (lastSourceRecordRev ps k) (revFind p.stats k)

/-- Instrumentation for the call-order claims: wrap a provider so that its
`fill_symbol` additionally appends the tag `i` to a call log carried in the
frame state. -/
def SymbolProvider.logFill (p : SymbolProvider M F W) (i : Nat) :
    SymbolProvider M (F × List Nat) W :=
  { fill_symbol := fun m fl =>
      (((p.fill_symbol m fl.1).1, fl.2 ++ [i]), (p.fill_symbol m fl.1).2)
    walk_frame := fun m w => p.walk_frame m w
    stats := p.stats }

/-- Wrap a provider so that its `walk_frame` additionally appends the tag `i`
to a call log carried in the walker state. -/
def SymbolProvider.logWalk (p : SymbolProvider M F W) (i : Nat) :
    SymbolProvider M F (W × List Nat) :=
  { fill_symbol := fun m f => p.fill_symbol m f
    walk_frame := fun m wl =>
      (((p.walk_frame m wl.1).1, wl.2 ++ [i]), (p.walk_frame m wl.1).2)
    stats := p.stats }

/-- Tag every provider of a list with consecutive indices starting at `i`,
instrumenting `fill_symbol`. -/
def logFillFrom : Nat → List (SymbolProvider M F W) →
    List (SymbolProvider M (F × List Nat) W)
  | _, [] => []
  | i, p :: ps => p.logFill i :: logFillFrom (i + 1) ps

/-- Tag every provider of a list with consecutive indices starting at `i`,
instrumenting `walk_frame`. -/
def logWalkFrom : Nat → List (SymbolProvider M F W) →
    List (SymbolProvider M F (W × List Nat))
  | _, [] => []
  | i, p :: ps => p.logWalk i :: logWalkFrom (i + 1) ps

/-- A source that always fails to fill, has no unwind data, and reports no
statistics: the identity element for the combinator. -/
def trivialSource : SymbolProvider M F W :=
  { fill_symbol := fun _ f => (f, Except.error FillSymbolError.mk)
    walk_frame := fun _ w => (w, none)
    stats := [] }

/-- A frame-symbolizer sink with the two field groups of the
`FrameSymbolizer` trait: `set_function(name, base, parameter_size)` and
`set_source_file(file, line, base)`. -/
structure FrameData where
  function : Option (String × Nat × Nat)
  source_line : Option (String × Nat × Nat)
deriving DecidableEq, Repr

/-- A source that succeeds and sets only the function fields of the sink. -/
def funcOnlySource (fn : String × Nat × Nat) : SymbolProvider M FrameData W :=
  { fill_symbol := fun _ f => ({ f with function := some fn }, Except.ok ())
    walk_frame := fun _ w => (w, none)
    stats := [] }

/-- A source that succeeds and sets only the source-line fields of the sink. -/
def lineOnlySource (ln : String × Nat × Nat) : SymbolProvider M FrameData W :=
  { fill_symbol := fun _ f => ({ f with source_line := some ln }, Except.ok ())
    walk_frame := fun _ w => (w, none)
    stats := [] }

/-- Concrete witness source whose `walk_frame` always succeeds and bumps the
walker. -/
def succStepSource : SymbolProvider Unit Unit Nat :=
  { fill_symbol := fun _ f => (f, Except.ok ())
    walk_frame := fun _ w => (w + 1, some ())
    stats := [] }

/-- Concrete witness stats record. -/
def statsRecOne : SymbolStats :=
  { symbol_url := none, loaded_symbols := true, corrupt_symbols := false }

/-- Concrete witness stats record. -/
def statsRecTwo : SymbolStats :=
  { symbol_url := some "http://sym", loaded_symbols := false, corrupt_symbols := true }

/-- Concrete witness source reporting stats for keys "shared" and "only1". -/
def statSourceOne : SymbolProvider Unit Unit Unit :=
  { fill_symbol := fun _ f => (f, Except.error FillSymbolError.mk)
    walk_frame := fun _ w => (w, none)
    stats := [("shared", statsRecOne), ("only1", statsRecOne)] }

/-- Concrete witness source reporting stats for key "shared" only. -/
def statSourceTwo : SymbolProvider Unit Unit Unit :=
  { fill_symbol := fun _ f => (f, Except.error FillSymbolError.mk)
    walk_frame := fun _ w => (w, none)
    stats := [("shared", statsRecTwo)] }

/-! ## Helper lemmas -/

theorem optOr_none_right {α : Type} (a : Option α) : optOr a none = a := by
  cases a <;> rfl

theorem exceptOr_error_right (a : Except FillSymbolError Unit) :
    exceptOr a (Except.error FillSymbolError.mk) = a := by
  cases a <;> rfl

theorem exceptOr_assoc (a b c : Except FillSymbolError Unit) :
    exceptOr (exceptOr a b) c = exceptOr a (exceptOr b c) := by
  cases a <;> rfl

/-- The fold of the fill loop: the final `best_result` is `Ok` exactly when
the initial accumulator was `Ok` or some provider's threaded result was. -/
theorem fillList_result (m : M) (ps : List (SymbolProvider M F W)) (f : F)
    (best : Except FillSymbolError Unit) :
    (fillList m ps f best).2 =
      exceptOr best
        (if (fillResults m ps f).any exceptIsOk then Except.ok ()
         else Except.error FillSymbolError.mk) := by
  induction ps generalizing f best with
  | nil =>
    simp only [fillList, fillResults, List.any_nil, if_neg Bool.false_ne_true]
    cases best <;> rfl
  | cons p ps ih =>
    rcases hpf : p.fill_symbol m f with ⟨f1, r⟩
    simp only [fillList, fillResults, List.any_cons, hpf]
    rw [ih]
    cases best with
    | ok v => rfl
    | error e =>
      cases r with
      | ok u => simp [exceptOr, exceptIsOk]
      | error e2 => simp [exceptOr, exceptIsOk]

theorem fillList_append (m : M) (ps qs : List (SymbolProvider M F W)) (f : F)
    (best : Except FillSymbolError Unit) :
    fillList m (ps ++ qs) f best =
      fillList m qs (fillList m ps f best).1 (fillList m ps f best).2 := by
  induction ps generalizing f best with
  | nil => rfl
  | cons p ps ih => simp only [List.cons_append, fillList]; exact ih _ _

theorem walkList_append (m : M) (ps qs : List (SymbolProvider M F W)) (w : W) :
    walkList m (ps ++ qs) w =
      if (walkList m ps w).2.isSome then walkList m ps w
      else walkList m qs (walkList m ps w).1 := by
  induction ps generalizing w with
  | nil => simp [walkList]
  | cons p ps ih =>
    rcases hpw : p.walk_frame m w with ⟨w1, r⟩
    simp only [List.cons_append, walkList, hpw]
    cases r with
    | none => simpa using ih _
    | some u => simp

/-! ## Claim theorems -/

/-- Claim C6: a combinator built with `new()` has an empty provider list;
its `fill_symbol` returns the fill-failure error, its `walk_frame` returns
`none` (leaving the walker untouched), and its `stats` is the empty map. -/
theorem multi_new_empty_behavior (m : M) (f : F) (w : W) :
    (MultiSymbolProvider.new : MultiSymbolProvider M F W).providers = [] ∧
    (MultiSymbolProvider.new : MultiSymbolProvider M F W).fill_symbol m f =
      (f, Except.error FillSymbolError.mk) ∧
    (MultiSymbolProvider.new : MultiSymbolProvider M F W).walk_frame m w = (w, none) ∧
    (MultiSymbolProvider.new : MultiSymbolProvider M F W).stats = [] :=
  ⟨rfl, rfl, rfl, rfl⟩

/-- Claim C1: `MultiSymbolProvider::fill_symbol` returns `Ok` if and only if
at least one registered source's (state-threaded) `fill_symbol` call returned
`Ok`; when every source returned fill-failure, it returns the fill-failure
error.  Stated as an exact characterization of the returned result. -/
theorem multi_fill_symbol_ok_iff_some_source_ok (ps : List (SymbolProvider M F W))
    (m : M) (f : F) :
    ((MultiSymbolProvider.mk ps).fill_symbol m f).2 =
      (if (fillResults m ps f).any exceptIsOk then Except.ok ()
       else Except.error FillSymbolError.mk) := by
  have h := fillList_result m ps f (Except.error FillSymbolError.mk)
  simpa [MultiSymbolProvider.fill_symbol, exceptOr] using h

/-- Claim C4: `MultiSymbolProvider::walk_frame` returns `none` if and only if
every registered source's (state-threaded) `walk_frame` call returned
`none`. -/
theorem multi_walk_frame_none_iff_all_none (ps : List (SymbolProvider M F W))
    (m : M) (w : W) :
    ((MultiSymbolProvider.mk ps).walk_frame m w).2 = none ↔
      allNoneThreaded m ps w = true := by
  induction ps generalizing w with
  | nil => simp [MultiSymbolProvider.walk_frame, walkList, allNoneThreaded]
  | cons p ps ih =>
    simp only [MultiSymbolProvider.walk_frame, walkList, allNoneThreaded] at *
    cases hr : (p.walk_frame m w).2 with
    | none => simpa [hr] using ih _
    | some u => simp [hr]

/-- Claim C10: adding (via `add`) a source that always returns fill-failure
without touching the sink, always returns `none` without touching the walker,
and reports empty statistics leaves all three observable operations of the
combinator unchanged. -/
theorem multi_add_trivial_source_identity (ms : MultiSymbolProvider M F W)
    (m : M) (f : F) (w : W) :
    ((ms.add trivialSource).fill_symbol m f = ms.fill_symbol m f) ∧
    ((ms.add trivialSource).walk_frame m w = ms.walk_frame m w) ∧
    (ms.add trivialSource).stats = ms.stats := by
  refine ⟨?_, ?_, ?_⟩
  · simp only [MultiSymbolProvider.add, MultiSymbolProvider.fill_symbol,
      fillList_append, fillList, trivialSource, exceptOr_error_right]
  · simp only [MultiSymbolProvider.add, MultiSymbolProvider.walk_frame,
      walkList_append]
    cases hres : (walkList m ms.providers w).2 with
    | none =>
      simp only [hres, Option.isSome_none, Bool.false_eq_true, if_false, walkList,
        trivialSource]
      rw [← hres]
    | some u => simp [hres]
  · simp [MultiSymbolProvider.add, MultiSymbolProvider.stats, hmExtend, trivialSource]

/-- Running the fill loop over index-instrumented providers appends exactly
the consecutive tags `i, i+1, ...` (one per provider) to the log, and agrees
with the uninstrumented run on frame state and result. -/
theorem fillList_log (m : M) (ps : List (SymbolProvider M F W)) (i : Nat) (f : F)
    (log : List Nat) (best : Except FillSymbolError Unit) :
    fillList m (logFillFrom i ps) (f, log) best =
      (((fillList m ps f best).1, log ++ List.range' i ps.length),
        (fillList m ps f best).2) := by
  induction ps generalizing i f log best with
  | nil => simp [fillList, logFillFrom]
  | cons p ps ih =>
    simp only [logFillFrom, fillList, SymbolProvider.logFill, List.length_cons,
      List.range'_succ]
    rw [ih]
    simp

/-- Claim C2: one `fill_symbol` call on the combinator invokes `fill_symbol`
of every registered source exactly once, in registration order, with no
short-circuit: over index-instrumented sources the call log is exactly
`[0, 1, ..., n-1]`, and the run agrees with the uninstrumented combinator. -/
theorem multi_fill_symbol_invokes_all_in_order (ps : List (SymbolProvider M F W))
    (m : M) (f : F) :
    (MultiSymbolProvider.mk (logFillFrom 0 ps)).fill_symbol m (f, []) =
      ((((MultiSymbolProvider.mk ps).fill_symbol m f).1, List.range ps.length),
        ((MultiSymbolProvider.mk ps).fill_symbol m f).2) := by
  simp [MultiSymbolProvider.fill_symbol, fillList_log, List.range_eq_range']

/-- The walk loop, run on a prefix of sources that all return `none` followed
by a source returning `some ()`, returns that source's output on the threaded
walker state. -/
theorem walkList_first_some (m : M) (ps qs : List (SymbolProvider M F W))
    (p : SymbolProvider M F W) (w : W)
    (h1 : allNoneThreaded m ps w = true)
    (h2 : (p.walk_frame m (threadWalk m ps w)).2 = some ()) :
    walkList m (ps ++ p :: qs) w = p.walk_frame m (threadWalk m ps w) := by
  induction ps generalizing w with
  | nil =>
    simp only [List.nil_append, walkList, threadWalk] at *
    rcases hpw : p.walk_frame m w with ⟨w1, r⟩
    rw [hpw] at h2
    simp at h2
    simp [hpw, h2]
  | cons q ps ih =>
    simp only [allNoneThreaded, Bool.and_eq_true, Option.isNone_iff_eq_none] at h1
    simp only [threadWalk] at h2 ⊢
    simp only [List.cons_append, walkList, h1.1, Option.isSome_none,
      Bool.false_eq_true, if_false]
    exact ih _ h1.2 h2

/-- Running the walk loop over index-instrumented providers, when the first
`ps.length` sources return `none` and the next returns `some ()`, logs
exactly the tags `i, ..., i + ps.length` and stops: later sources are never
invoked. -/
theorem walkList_log_first_some (m : M) (ps qs : List (SymbolProvider M F W))
    (p : SymbolProvider M F W) (i : Nat) (w : W) (log : List Nat)
    (h1 : allNoneThreaded m ps w = true)
    (h2 : (p.walk_frame m (threadWalk m ps w)).2 = some ()) :
    walkList m (logWalkFrom i (ps ++ p :: qs)) (w, log) =
      (((p.walk_frame m (threadWalk m ps w)).1,
          log ++ List.range' i (ps.length + 1)), some ()) := by
  induction ps generalizing i w log with
  | nil =>
    simp only [List.nil_append, logWalkFrom, walkList, SymbolProvider.logWalk,
      threadWalk] at *
    simp [h2]
  | cons q ps ih =>
    simp only [allNoneThreaded, Bool.and_eq_true, Option.isNone_iff_eq_none] at h1
    simp only [threadWalk] at h2 ⊢
    simp only [List.cons_append, logWalkFrom, walkList, SymbolProvider.logWalk,
      h1.1, Option.isSome_none, Bool.false_eq_true, if_false, List.length_cons]
    rw [show ps.append (p :: qs) = ps ++ p :: qs from rfl, ih _ _ _ h1.2 h2]
    simp [List.range'_succ, List.append_assoc]

/-- Claim C3: `MultiSymbolProvider::walk_frame` queries sources in
registration order and returns the result of the first source whose
`walk_frame` returns a defined result, stopping immediately: the combinator's
output is that source's output, and over index-instrumented sources the call
log is exactly `[0, ..., k]` where `k` is the position of the first success,
so sources registered after it are never invoked. -/
theorem multi_walk_frame_first_defined_short_circuit
    (ps qs : List (SymbolProvider M F W)) (p : SymbolProvider M F W)
    (m : M) (w : W)
    (h1 : allNoneThreaded m ps w = true)
    (h2 : (p.walk_frame m (threadWalk m ps w)).2 = some ()) :
    (MultiSymbolProvider.mk (ps ++ p :: qs)).walk_frame m w =
      p.walk_frame m (threadWalk m ps w) ∧
    ((MultiSymbolProvider.mk (logWalkFrom 0 (ps ++ p :: qs))).walk_frame m
        (w, [])).1.2 = List.range (ps.length + 1) := by
  constructor
  · exact walkList_first_some m ps qs p w h1 h2
  · rw [MultiSymbolProvider.walk_frame, walkList_log_first_some m ps qs p 0 w [] h1 h2]
    simp [List.range_eq_range']

/-- Witness for claim C3 at a concrete input: one always-`none` source, then
a succeeding source, then a further source; the combinator returns the second
source's output and the instrumented log is `[0, 1]`. -/
theorem multi_walk_frame_first_defined_short_circuit_witness :
    allNoneThreaded () [(trivialSource : SymbolProvider Unit Unit Nat)] 0 = true ∧
    (succStepSource.walk_frame ()
        (threadWalk () [(trivialSource : SymbolProvider Unit Unit Nat)] 0)).2 =
      some () ∧
    ((MultiSymbolProvider.mk ([trivialSource] ++ succStepSource ::
        [trivialSource])).walk_frame () 0 =
      succStepSource.walk_frame ()
        (threadWalk () [(trivialSource : SymbolProvider Unit Unit Nat)] 0) ∧
    ((MultiSymbolProvider.mk (logWalkFrom 0 ([trivialSource] ++ succStepSource ::
        [trivialSource]))).walk_frame () (0, [])).1.2 = List.range 2) :=
  ⟨rfl, rfl,
    multi_walk_frame_first_defined_short_circuit [trivialSource] [trivialSource]
      succStepSource () 0 rfl rfl⟩

/-- The walk loop under the source contract "returning `none` does not mutate
the walker": a `none` overall result leaves the walker unchanged, and a
`some` result is exactly the output of the first succeeding source. -/
theorem walkList_contract (m : M) (ps : List (SymbolProvider M F W)) (w : W) :
    (∀ p ∈ ps, ∀ v, (p.walk_frame m v).2 = none → (p.walk_frame m v).1 = v) →
    ((walkList m ps w).2 = none → (walkList m ps w).1 = w) ∧
    ((walkList m ps w).2 = some () →
      ∃ pre b post, ps = pre ++ b :: post ∧
        (∀ q ∈ pre, (q.walk_frame m w).2 = none) ∧
        (b.walk_frame m w).2 = some () ∧
        walkList m ps w = b.walk_frame m w) := by
  induction ps with
  | nil =>
    intro _
    refine ⟨fun _ => rfl, fun h => ?_⟩
    simp [walkList] at h
  | cons p ps ih =>
    intro hc
    have hcp := hc p (List.mem_cons_self p ps)
    have hct : ∀ q ∈ ps, ∀ v, (q.walk_frame m v).2 = none →
        (q.walk_frame m v).1 = v :=
      fun q hq => hc q (List.mem_cons_of_mem _ hq)
    rcases hpw : p.walk_frame m w with ⟨w1, r⟩
    cases r with
    | some u =>
      have hwl : walkList m (p :: ps) w = (w1, some u) := by simp [walkList, hpw]
      rw [hwl]
      refine ⟨fun h => by simp at h, fun _ => ⟨[], p, ps, rfl, by simp, ?_, ?_⟩⟩
      · rw [hpw]
      · rw [hpw]
    | none =>
      have hw1 : w1 = w := by
        have h0 := hcp w
        rw [hpw] at h0
        exact h0 rfl
      rw [hw1] at hpw
      have hwl : walkList m (p :: ps) w = walkList m ps w := by simp [walkList, hpw]
      rw [hwl]
      obtain ⟨ihn, ihs⟩ := ih hct
      refine ⟨ihn, fun h => ?_⟩
      obtain ⟨pre, b, post, hsplit, hall, hb, heq⟩ := ihs h
      refine ⟨p :: pre, b, post, by rw [hsplit, List.cons_append], ?_, hb, heq⟩
      intro q hq
      rcases List.mem_cons.mp hq with hq | hq
      · subst hq; rw [hpw]
      · exact hall q hq

/-- Claim C8: if every registered source satisfies the contract that a
`walk_frame` call returning `none` does not mutate the walker, then the
combinator's `walk_frame` returning `none` leaves the walker unchanged, and
on success its output (walker state and result) is exactly that produced by
the first succeeding source. -/
theorem multi_walk_frame_respects_walker_contract
    (ps : List (SymbolProvider M F W)) (m : M) (w : W)
    (hc : ∀ p ∈ ps, ∀ v, (p.walk_frame m v).2 = none → (p.walk_frame m v).1 = v) :
    (((MultiSymbolProvider.mk ps).walk_frame m w).2 = none →
      ((MultiSymbolProvider.mk ps).walk_frame m w).1 = w) ∧
    (((MultiSymbolProvider.mk ps).walk_frame m w).2 = some () →
      ∃ pre b post, ps = pre ++ b :: post ∧
        (∀ q ∈ pre, (q.walk_frame m w).2 = none) ∧
        (b.walk_frame m w).2 = some () ∧
        (MultiSymbolProvider.mk ps).walk_frame m w = b.walk_frame m w) :=
  walkList_contract m ps w hc

/-- Witness for claim C8 at a concrete input: a single source that always
succeeds (and therefore satisfies the no-mutation-on-`none` contract
vacuously), applied at walker state `0`. -/
theorem multi_walk_frame_respects_walker_contract_witness :
    (∀ p ∈ [succStepSource], ∀ v,
        (p.walk_frame () v).2 = none → (p.walk_frame () v).1 = v) ∧
    ((((MultiSymbolProvider.mk [succStepSource]).walk_frame () 0).2 = none →
        ((MultiSymbolProvider.mk [succStepSource]).walk_frame () 0).1 = 0) ∧
      (((MultiSymbolProvider.mk [succStepSource]).walk_frame () 0).2 = some () →
        ∃ pre b post, [succStepSource] = pre ++ b :: post ∧
          (∀ q ∈ pre, (q.walk_frame () 0).2 = none) ∧
          (b.walk_frame () 0).2 = some () ∧
          (MultiSymbolProvider.mk [succStepSource]).walk_frame () 0 =
            b.walk_frame () 0)) := by
  have hc : ∀ p ∈ [succStepSource], ∀ v,
      (p.walk_frame () v).2 = none → (p.walk_frame () v).1 = v := by
    intro p hp v hnone
    rw [List.mem_singleton] at hp
    subst hp
    simp [succStepSource] at hnone
  exact ⟨hc, multi_walk_frame_respects_walker_contract [succStepSource] () 0 hc⟩

/-- Lookup after replacing every entry keyed `a`: the key `a` maps to the new
value when it was present, other keys are untouched. -/
theorem hmFind_map_replace (m : List (String × SymbolStats)) (a : String)
    (v : SymbolStats) (k : String) :
    hmFind (m.map (fun kv => if kv.1 = a then (a, v) else kv)) k =
      if a = k then (if m.any (fun kv => kv.1 = a) then some v else none)
      else hmFind m k := by
  induction m with
  | nil => simp [hmFind]
  | cons kv m ih =>
    by_cases hak : a = k
    · subst hak
      by_cases hkv : kv.1 = a
      · simp [hmFind, hkv, ih]
      · by_cases hany : (m.any fun kv => decide (kv.1 = a)) = true
        · simp [hmFind, hkv, ih, hany]
        · simp [hmFind, hkv, ih, hany]
    · by_cases hkv : kv.1 = a
      · have hk : ¬kv.1 = k := fun h => hak (hkv.symm.trans h)
        simp [hmFind, hkv, hak, hk, ih]
      · simp [hmFind, hkv, hak, ih]

/-- Lookup after appending a single entry. -/
theorem hmFind_append_single (m : List (String × SymbolStats)) (a : String)
    (v : SymbolStats) (k : String) :
    hmFind (m ++ [(a, v)]) k =
      optOr (hmFind m k) (if a = k then some v else none) := by
  induction m with
  | nil => simp [hmFind, optOr]
  | cons kv m ih =>
    by_cases h : kv.1 = k <;> simp [hmFind, h, ih, optOr]

/-- A key absent from the map (per `List.any`) has no entry. -/
theorem hmFind_eq_none_of_any_false (m : List (String × SymbolStats)) (a : String)
    (h : m.any (fun kv => kv.1 = a) = false) : hmFind m a = none := by
  induction m with
  | nil => rfl
  | cons kv m ih =>
    simp only [List.any_cons, Bool.or_eq_false_iff] at h
    have h1 : ¬kv.1 = a := by simpa using h.1
    simp [hmFind, h1, ih h.2]

/-- `HashMap::insert` lookup characterization: the inserted key maps to the
inserted value, other keys are untouched. -/
theorem hmFind_hmInsert (m : List (String × SymbolStats)) (a : String)
    (v : SymbolStats) (k : String) :
    hmFind (hmInsert m a v) k = if a = k then some v else hmFind m k := by
  unfold hmInsert
  by_cases hany : m.any (fun kv => kv.1 = a) = true
  · rw [if_pos hany, hmFind_map_replace]
    simp [hany]
  · rw [if_neg hany, hmFind_append_single]
    by_cases hak : a = k
    · subst hak
      rw [hmFind_eq_none_of_any_false m a (Bool.eq_false_iff.mpr hany)]
      simp [optOr]
    · simp [hak, optOr_none_right]

/-- `HashMap::extend` lookup characterization: an entry of the extension list
wins (its last occurrence), otherwise the base map answers. -/
theorem hmFind_hmExtend (l m : List (String × SymbolStats)) (k : String) :
    hmFind (hmExtend m l) k = optOr (revFind l k) (hmFind m k) := by
  induction l generalizing m with
  | nil => simp [hmExtend, revFind, optOr]
  | cons kv l ih =>
    rw [show hmExtend m (kv :: l) = hmExtend (hmInsert m kv.1 kv.2) l from rfl, ih,
      hmFind_hmInsert]
    simp only [revFind]
    cases revFind l k with
    | some s => simp [optOr]
    | none =>
      by_cases h : kv.1 = k <;> simp [h, optOr]

/-- The stats fold of the combinator, looked up at a key: the last registered
provider reporting the key wins, otherwise the accumulator answers. -/
theorem hmFind_stats_fold (ps : List (SymbolProvider M F W))
    (acc : List (String × SymbolStats)) (k : String) :
    hmFind (ps.foldl (fun a p => hmExtend a p.stats) acc) k =
      optOr (lastSourceRecordRev ps k) (hmFind acc k) := by
  induction ps generalizing acc with
  | nil => simp [lastSourceRecordRev, optOr]
  | cons p ps ih =>
    simp only [List.foldl_cons, lastSourceRecordRev]
    rw [ih, hmFind_hmExtend]
    cases lastSourceRecordRev ps k <;> simp [optOr]

/-- A key not in the key list has no last occurrence. -/
theorem revFind_eq_none_of_not_mem (m : List (String × SymbolStats)) (k : String)
    (h : k ∉ m.map Prod.fst) : revFind m k = none := by
  induction m with
  | nil => rfl
  | cons kv m ih =>
    simp only [List.map_cons, List.mem_cons, not_or] at h
    have hk : ¬kv.1 = k := fun hh => h.1 hh.symm
    simp [revFind, hk, ih h.2, optOr]

/-- On a map with no duplicate keys, last-occurrence lookup and
first-occurrence lookup agree. -/
theorem revFind_eq_hmFind_of_nodup (m : List (String × SymbolStats)) (k : String)
    (h : (m.map Prod.fst).Nodup) : revFind m k = hmFind m k := by
  induction m with
  | nil => rfl
  | cons kv m ih =>
    simp only [List.map_cons, List.nodup_cons] at h
    by_cases hk : kv.1 = k
    · subst hk
      rw [revFind, revFind_eq_none_of_not_mem m _ h.1]
      simp [hmFind, optOr]
    · simp [revFind, hmFind, hk, ih h.2, optOr_none_right]

/-- Under the `HashMap` no-duplicate-keys invariant on every provider's stats
snapshot, the two forms of the last-write-wins record agree. -/
theorem lastSourceRecordRev_eq_lastSourceRecord (ps : List (SymbolProvider M F W))
    (k : String) (h : ∀ p ∈ ps, (p.stats.map Prod.fst).Nodup) :
    lastSourceRecordRev ps k = lastSourceRecord ps k := by
  induction ps with
  | nil => rfl
  | cons p ps ih =>
    rw [lastSourceRecordRev, lastSourceRecord,
      ih (fun q hq => h q (List.mem_cons_of_mem _ hq)),
      revFind_eq_hmFind_of_nodup _ _ (h p (List.mem_cons_self p ps))]

/-- Claim C5: `MultiSymbolProvider::stats` is the union of every source's
statistics mapping with last-write-wins merging: for any module key, the
lookup yields the record of the last registered source reporting that key
(given the `HashMap` invariant that each source's snapshot has no duplicate
keys), and keys reported by no source are absent. -/
theorem multi_stats_last_write_wins (ms : MultiSymbolProvider M F W)
    (h : ∀ p ∈ ms.providers, (p.stats.map Prod.fst).Nodup) (k : String) :
    hmFind ms.stats k = lastSourceRecord ms.providers k := by
  rw [MultiSymbolProvider.stats, hmFind_stats_fold,
    lastSourceRecordRev_eq_lastSourceRecord _ _ h]
  simp [hmFind, optOr_none_right]

/-- Witness for claim C5 at a concrete input: two sources both reporting the
key "shared" (the second one's record wins) and the first also reporting
"only1". -/
theorem multi_stats_last_write_wins_witness :
    (∀ p ∈ (MultiSymbolProvider.mk [statSourceOne, statSourceTwo]).providers,
        (p.stats.map Prod.fst).Nodup) ∧
    hmFind (MultiSymbolProvider.mk [statSourceOne, statSourceTwo]).stats "shared" =
      lastSourceRecord
        (MultiSymbolProvider.mk [statSourceOne, statSourceTwo]).providers
        "shared" :=
  ⟨by decide, multi_stats_last_write_wins
    (MultiSymbolProvider.mk [statSourceOne, statSourceTwo]) (by decide) "shared"⟩

theorem exceptOr_error_left (b : Except FillSymbolError Unit) :
    exceptOr (Except.error FillSymbolError.mk) b = b := rfl

/-- Replacing the value of key `a` does not change the key list. -/
theorem hmInsert_keys_replace (m : List (String × SymbolStats)) (a : String)
    (v : SymbolStats) :
    (m.map (fun kv => if kv.1 = a then (a, v) else kv)).map Prod.fst =
      m.map Prod.fst := by
  induction m with
  | nil => rfl
  | cons kv m ih =>
    by_cases h : kv.1 = a <;> simp [h, ih]

/-- A key reported absent by `List.any` is not in the key list. -/
theorem not_mem_keys_of_any_false (m : List (String × SymbolStats)) (a : String)
    (h : ¬m.any (fun kv => kv.1 = a) = true) : a ∉ m.map Prod.fst := by
  intro hmem
  rcases List.mem_map.mp hmem with ⟨kv, hkv, hfst⟩
  exact h (List.any_eq_true.mpr ⟨kv, hkv, by simpa using hfst⟩)

/-- `hmInsert` preserves the no-duplicate-keys invariant. -/
theorem hmInsert_keys_nodup (m : List (String × SymbolStats)) (a : String)
    (v : SymbolStats) (h : (m.map Prod.fst).Nodup) :
    ((hmInsert m a v).map Prod.fst).Nodup := by
  unfold hmInsert
  by_cases hany : m.any (fun kv => kv.1 = a) = true
  · rw [if_pos hany, hmInsert_keys_replace]
    exact h
  · rw [if_neg hany, List.map_append]
    rw [List.nodup_append]
    refine ⟨h, List.nodup_singleton a, ?_⟩
    intro x hx hx1
    simp only [List.map_cons, List.map_nil, List.mem_singleton] at hx1
    rw [hx1] at hx
    exact not_mem_keys_of_any_false m a hany hx

/-- `hmExtend` preserves the no-duplicate-keys invariant. -/
theorem hmExtend_keys_nodup (l m : List (String × SymbolStats))
    (h : (m.map Prod.fst).Nodup) : ((hmExtend m l).map Prod.fst).Nodup := by
  induction l generalizing m with
  | nil => exact h
  | cons kv l ih =>
    exact ih (hmInsert m kv.1 kv.2) (hmInsert_keys_nodup m kv.1 kv.2 h)

/-- The combinator's merged statistics map satisfies the `HashMap`
no-duplicate-keys invariant. -/
theorem multi_stats_keys_nodup (ms : MultiSymbolProvider M F W) :
    (ms.stats.map Prod.fst).Nodup := by
  rw [MultiSymbolProvider.stats]
  have aux : ∀ (ps : List (SymbolProvider M F W)) (acc : List (String × SymbolStats)),
      (acc.map Prod.fst).Nodup →
      (((ps.foldl (fun a p => hmExtend a p.stats) acc)).map Prod.fst).Nodup := by
    intro ps
    induction ps with
    | nil => exact fun acc h => h
    | cons p ps ih =>
      intro acc h
      exact ih _ (hmExtend_keys_nodup p.stats acc h)
  exact aux ms.providers [] (by simp)

/-- Claim C7: combinators nest transparently.  A combinator over
`[A, inner]`, where `inner` is itself a combinator over `[B, C]` viewed
through the trait, is observationally equivalent to the flat combinator over
`[A, B, C]`: `fill_symbol` and `walk_frame` agree exactly, and `stats` agrees
on every key lookup. -/
theorem multi_nesting_transparent (A B C : SymbolProvider M F W) (m : M)
    (f : F) (w : W) (k : String) :
    (MultiSymbolProvider.mk
        [A, (MultiSymbolProvider.mk [B, C]).toProvider]).fill_symbol m f =
      (MultiSymbolProvider.mk [A, B, C]).fill_symbol m f ∧
    (MultiSymbolProvider.mk
        [A, (MultiSymbolProvider.mk [B, C]).toProvider]).walk_frame m w =
      (MultiSymbolProvider.mk [A, B, C]).walk_frame m w ∧
    hmFind (MultiSymbolProvider.mk
        [A, (MultiSymbolProvider.mk [B, C]).toProvider]).stats k =
      hmFind (MultiSymbolProvider.mk [A, B, C]).stats k := by
  refine ⟨?_, ?_, ?_⟩
  · simp only [MultiSymbolProvider.fill_symbol, MultiSymbolProvider.toProvider,
      fillList, exceptOr_error_left, exceptOr_assoc]
  · have key : ∀ v : W,
        walkList m [(MultiSymbolProvider.mk [B, C]).toProvider] v =
          walkList m [B, C] v := by
      intro v
      show (if (walkList m [B, C] v).2.isSome then walkList m [B, C] v
            else ((walkList m [B, C] v).1, none)) = walkList m [B, C] v
      cases hr : (walkList m [B, C] v).2 with
      | some u => simp [hr]
      | none =>
        simp only [hr, Option.isSome_none, Bool.false_eq_true, if_false]
        rw [← hr]
    rw [show ([A, (MultiSymbolProvider.mk [B, C]).toProvider] :
          List (SymbolProvider M F W)) =
        [A] ++ [(MultiSymbolProvider.mk [B, C]).toProvider] from rfl]
    rw [MultiSymbolProvider.walk_frame, MultiSymbolProvider.walk_frame,
      walkList_append]
    rw [show ([A, B, C] : List (SymbolProvider M F W)) = [A] ++ [B, C] from rfl,
      walkList_append]
    by_cases hA : (walkList m [A] w).2.isSome = true
    · rw [if_pos hA, if_pos hA]
    · rw [if_neg hA, if_neg hA]
      exact key _
  · rw [MultiSymbolProvider.stats, MultiSymbolProvider.stats, hmFind_stats_fold,
      hmFind_stats_fold]
    simp only [lastSourceRecordRev, MultiSymbolProvider.toProvider]
    rw [revFind_eq_hmFind_of_nodup _ _
      (multi_stats_keys_nodup (MultiSymbolProvider.mk [B, C])),
      MultiSymbolProvider.stats, hmFind_stats_fold]
    simp only [lastSourceRecordRev]
    cases revFind A.stats k <;> cases revFind B.stats k <;>
      cases revFind C.stats k <;> simp [optOr, hmFind]

/-- Claim C9: with source A succeeding and setting only the function fields
and source B succeeding and setting only the line fields, the combinator
returns success and the sink ends up holding both A's function data and B's
line data: B's write does not clobber A's function name. -/
theorem multi_fill_symbol_field_scoped_writes (fn ln : String × Nat × Nat)
    (m : M) (f : FrameData) :
    ((MultiSymbolProvider.mk [funcOnlySource fn,
        (lineOnlySource ln : SymbolProvider M FrameData W)]).fill_symbol m f).2 =
      Except.ok () ∧
    ((MultiSymbolProvider.mk [funcOnlySource fn,
        (lineOnlySource ln : SymbolProvider M FrameData W)]).fill_symbol m
          f).1.function = some fn ∧
    ((MultiSymbolProvider.mk [funcOnlySource fn,
        (lineOnlySource ln : SymbolProvider M FrameData W)]).fill_symbol m
          f).1.source_line = some ln :=
  ⟨rfl, rfl, rfl⟩
